import Mathlib

/-!
Verification development for the hum.ai melody-matching backend.

The Python sources are shallowly embedded over exact arithmetic:
float computations are modelled over the reals (or over the rationals
when no irrational operation occurs on the code path), NumPy arrays
become lists, and dictionaries with a fixed field set become structures.
External library collaborators (librosa audio decoding, pyin pitch
tracking, the hz-to-midi conversion) are treated as parameters or as
out-of-scope inputs, matching the specification scope.
-/

open scoped Classical

set_option maxHeartbeats 1000000

/-! ## Python and NumPy primitives -/

/-- Python `int(q)`: truncation toward zero. -/
def pyInt (q : ℚ) : ℤ := if 0 ≤ q then ⌊q⌋ else ⌈q⌉

/-- NumPy and Python rounding on exact rationals: round half to even. -/
def npRound (q : ℚ) : ℤ :=
  if q - ⌊q⌋ < 1 / 2 then ⌊q⌋
  else if 1 / 2 < q - ⌊q⌋ then ⌊q⌋ + 1
  else if Even ⌊q⌋ then ⌊q⌋ else ⌊q⌋ + 1

/-- Python `round` on exact reals: round half to even. -/
noncomputable def npRoundR (x : ℝ) : ℤ :=
  if x - ⌊x⌋ < 1 / 2 then ⌊x⌋
  else if 1 / 2 < x - ⌊x⌋ then ⌊x⌋ + 1
  else if Even ⌊x⌋ then ⌊x⌋ else ⌊x⌋ + 1

/-- Mean of a list, `np.mean`; division by zero length yields 0, as in Lean. -/
def listMean {α : Type} [DivisionRing α] (l : List α) : α := l.sum / l.length

/-- Python index normalization used by slice `l[s:e]`. -/
def pyIdx (n : ℕ) (i : ℤ) : ℕ := if 0 ≤ i then min i.toNat n else ((n : ℤ) + i).toNat

/-- Python slice `l[s:e]` with full negative-index semantics. -/
def pySlice {α : Type} (l : List α) (s e : ℤ) : List α :=
  (l.take (pyIdx l.length e)).drop (pyIdx l.length s)

/-- First differences, `np.diff`: `out[i] = a[i+1] - a[i]`. -/
def npDiff {α : Type} [Sub α] (l : List α) : List α :=
  List.zipWith (fun a b => b - a) l (l.drop 1)

/-! ## backend/dsp_utils.py -/

/-- Embeds `normalize_to_intervals` from backend/dsp_utils.py:
first differences, rounding to integer semitones, clipping to [-7, 7].
The NumPy float array is modelled as a list of exact rationals. -/
def normalize_to_intervals (pitch_midi : List ℚ) : List ℚ :=
  if pitch_midi.length < 2 then []
  else
    let intervals := npDiff pitch_midi
    let rounded := intervals.map (fun d => ((npRound d : ℤ) : ℚ))
    rounded.map (fun z => min 7 (max (-7) z))

/-- Modelled from the spec: the claimed IntervalContour derivation,
which additionally subtracts the mean of the interval sequence as a
final step (the sentence under test for the interval representation). -/
def claim_normalize_to_intervals (pitch_midi : List ℚ) : List ℚ :=
  if pitch_midi.length < 2 then []
  else
    let ints := (npDiff pitch_midi).map (fun d => min 7 (max (-7) ((npRound d : ℤ) : ℚ)))
    ints.map (fun z => z - listMean ints)

/-- List access at a signed index with zero padding for out-of-range reads;
used by the scipy median filter embedding. -/
def getZ (l : List ℚ) (i : ℤ) : ℚ := if 0 ≤ i then l.getD i.toNat 0 else 0

/-- The window of `k` samples centered at index `i`, zero padded at the
edges, as gathered by `scipy.signal.medfilt`. -/
def medianWindow (l : List ℚ) (k i : ℕ) : List ℚ :=
  (List.range k).map (fun j => getZ l ((i : ℤ) + (j : ℤ) - ((k / 2 : ℕ) : ℤ)))

/-- Median of a window: middle element of the sorted window (odd length). -/
def listMedian (w : List ℚ) : ℚ := (w.insertionSort (· ≤ ·)).getD (w.length / 2) 0

/-- Embeds `scipy.signal.medfilt`: sliding median with zero padding. -/
def medfilt (l : List ℚ) (k : ℕ) : List ℚ :=
  (List.range l.length).map (fun i => listMedian (medianWindow l k i))

/-- Embeds `np.percentile` with the default linear interpolation. -/
def npPercentile (l : List ℚ) (q : ℚ) : ℚ :=
  let s := l.insertionSort (· ≤ ·)
  let pos := q / 100 * ((l.length : ℚ) - 1)
  let lo := (⌊pos⌋).toNat
  let hi := (⌈pos⌉).toNat
  s.getD lo 0 + (pos - ⌊pos⌋) * (s.getD hi 0 - s.getD lo 0)

/-- Embeds `extract_pitch` from backend/dsp_utils.py, starting at the pyin
output `f0` (audio loading, the RMS silence gate and pyin itself are
external librosa collaborators, out of scope per the spec). Unvoiced
frames are `none`; `hz_to_midi` is the pointwise librosa conversion,
passed as a parameter. Steps: drop unvoiced frames, require at least 15
frames, median filter with the degraded odd kernel, convert to MIDI,
clip to the 5th and 95th percentile, subtract the mean. -/
def extract_pitch (hz_to_midi : ℚ → ℚ) (f0 : List (Option ℚ)) : Option (List ℚ) :=
  let f0_clean := f0.filterMap id
  if f0_clean.length < 15 then none
  else
    let kernel_size :=
      min 5 (if f0_clean.length % 2 = 1 then f0_clean.length else f0_clean.length - 1)
    let f0_filt := if 3 ≤ kernel_size then medfilt f0_clean kernel_size else f0_clean
    let midi := f0_filt.map hz_to_midi
    let p5 := npPercentile midi 5
    let p95 := npPercentile midi 95
    let clipped := midi.map (fun x => min p95 (max p5 x))
    some (clipped.map (fun x => x - listMean clipped))

/-! ## backend/dsp_engine.py -/

/-- Minimum valid pitch frames required for a meaningful comparison. -/
def MIN_VALID_FRAMES : ℕ := 10

/-- Frames per second hop constant from backend/config.py. -/
def HOP_LENGTH : ℕ := 512

/-- Sample rate constant from backend/config.py. -/
def SAMPLE_RATE : ℕ := 22050

/-- Embeds `normalize_pitch_contour` from backend/dsp_engine.py: convert
each voiced frame with the pointwise `hz_to_midi` (librosa, parameter;
it maps NaN to NaN, so the `Option` structure is preserved), drop the
unvoiced frames, fail below `MIN_VALID_FRAMES`, subtract the mean. -/
def normalize_pitch_contour (hz_to_midi : ℚ → ℚ) (f0 : List (Option ℚ)) :
    Option (List ℚ) :=
  let midi_notes := f0.map (Option.map hz_to_midi)
  let valid_notes := midi_notes.filterMap id
  if valid_notes.length < MIN_VALID_FRAMES then none
  else some (valid_notes.map (fun x => x - listMean valid_notes))

/-- Embeds the while loop of `create_sliding_windows` from
backend/dsp_engine.py together with the trailing partial-window check:
emit `(start_frame, frame slice)` pairs stepping by `s` frames while a
full window of `W` frames fits, then one final partial window when the
remainder is nonempty and at least `MIN_VALID_FRAMES` long. The source
loops forever when the step is zero and a full window fits; that branch
is unreachable in the embedding (it returns `[]`) and every theorem
below assumes a positive step. -/
def windowLoop (contour : List ℚ) (W s start : ℕ) : List (ℕ × List ℚ) :=
  if _hfit : start + W ≤ contour.length then
    if _hstep : 0 < s then
      (start, (contour.drop start).take W) :: windowLoop contour W s (start + s)
    else []
  else
    if start < contour.length then
      if MIN_VALID_FRAMES ≤ contour.length - start then [(start, contour.drop start)]
      else []
    else []
termination_by contour.length + 1 - start
decreasing_by omega

/-- Embeds `create_sliding_windows` from backend/dsp_engine.py: converts
the second-valued window duration and overlap to frame counts with the
hop-derived frame rate and Python `int` truncation, then runs the
sliding loop; each emitted window is tagged with its start time in
seconds. Defaults are `WINDOW_DURATION_SEC = 15.0` and
`WINDOW_OVERLAP_SEC = 5.0`. -/
def create_sliding_windows (pitch_contour : List ℚ) (sr : ℚ)
    (window_sec : ℚ := 15) (overlap_sec : ℚ := 5) : List (List ℚ × ℚ) :=
  let frames_per_second := sr / (HOP_LENGTH : ℚ)
  let window_frames := (pyInt (window_sec * frames_per_second)).toNat
  let step_frames := (pyInt ((window_sec - overlap_sec) * frames_per_second)).toNat
  (windowLoop pitch_contour window_frames step_frames 0).map
    (fun p => (p.2, (p.1 : ℚ) / frames_per_second))

/-! ## Alignment distance

Both `compute_dtw_distance` wrappers in the source (backend/dsp_utils.py
with an L1 point distance and backend/dsp_engine.py with a Euclidean
point distance, which coincide on the one-dimensional reshaped vectors
actually passed) delegate to the external `fastdtw` library, which is
not part of this repository. The alignment distance itself is therefore
modelled from the spec: the classic minimum-cost monotonic-path dynamic
time warping of section 4.4, of which fastdtw is the documented
multi-resolution approximation, returning the realized path cost and
the number of cells of the realized path. -/

/-- Least-cost choice among three (cost, path length) candidates,
preferring earlier arguments on cost ties. -/
def min3 (a b c : ℚ × ℕ) : ℚ × ℕ :=
  let m1 := if b.1 < a.1 then b else a
  if c.1 < m1.1 then c else m1

/-- Modelled from the spec: classic DTW over two sequences with the L1
pointwise distance, returning total path cost and path length (number
of matrix cells on the realized path). On two empty sequences the
result is `(0, 0)`, matching the zero-cost empty path of the library;
a single empty input raises in the library and is modelled as `(0, 0)`
as well (no theorem below depends on that case). -/
def dtwPair : List ℚ → List ℚ → ℚ × ℕ
  | [], _ => (0, 0)
  | _ :: _, [] => (0, 0)
  | [x], [y] => (|x - y|, 1)
  | [x], y :: y2 :: ys =>
    let r := dtwPair [x] (y2 :: ys)
    (|x - y| + r.1, r.2 + 1)
  | x :: x2 :: xs, [y] =>
    let r := dtwPair (x2 :: xs) [y]
    (|x - y| + r.1, r.2 + 1)
  | x :: x2 :: xs, y :: y2 :: ys =>
    let r := min3 (dtwPair (x2 :: xs) (y :: y2 :: ys))
      (dtwPair (x :: x2 :: xs) (y2 :: ys))
      (dtwPair (x2 :: xs) (y2 :: ys))
    (|x - y| + r.1, r.2 + 1)
termination_by a b => a.length + b.length

/-- Embeds `compute_dtw_distance` from backend/dsp_utils.py: the DTW
cost normalized by path length plus one, returned together with the
path length. -/
def compute_dtw_distance (seq1 seq2 : List ℚ) : ℚ × ℕ :=
  let r := dtwPair seq1 seq2
  (r.1 / ((r.2 : ℚ) + 1), r.2)

/-! ## backend/services/melody.py -/

/-- Embeds `_get_note_number` from backend/services/melody.py: the
piano-key number of a frequency, `12 * log2(f / 440) + 49`, rounded
with Python round (half to even) when it lies in the 88-key range,
and 0 otherwise (also for non-positive input). Floats are modelled as
exact reals, so the logarithm lives in `ℝ`. -/
noncomputable def _get_note_number (pitch_val : ℝ) : ℤ :=
  if pitch_val ≤ 0 then 0
  else
    let n := 12 * Real.logb 2 (pitch_val / 440) + 49
    if 1 ≤ n ∧ n ≤ 88 then npRoundR n else 0

/-- Embeds `_pitches_per_interval` from backend/services/melody.py: for
each onset time, the frame index `int(onset / duration * total_frames)`,
followed by one extra trailing entry holding the total frame count, so
the table has one more entry than there are onsets. -/
def _pitches_per_interval (audio_length : ℕ) (pitch_values : List ℝ)
    (onsets : List ℚ) : List ℤ :=
  let total_frames : ℤ := pitch_values.length
  let duration : ℚ := (audio_length : ℚ) / (SAMPLE_RATE : ℚ)
  onsets.map (fun t => pyInt (t / duration * (pitch_values.length : ℚ))) ++ [total_frames]

/-- Embeds `_average_per_interval` from backend/services/melody.py: for
`i` in `range(len(onsets) - 1)` only, slice the pitch frames between
boundary `i` and boundary `i + 1`, keep the strictly positive ones, and
record the note number of their mean (0 when the interval is empty). -/
noncomputable def _average_per_interval (pitch_values : List ℝ)
    (pitches_per_interval : List ℤ) (onsets : List ℚ) : List ℤ :=
  (List.range (onsets.length - 1)).map (fun i =>
    let start_idx := pitches_per_interval.getD i 0
    let end_idx := pitches_per_interval.getD (i + 1) 0
    if start_idx < end_idx then
      let segment := pySlice pitch_values start_idx end_idx
      let valid_pitches := segment.filter (fun p => decide (0 < p))
      if 0 < valid_pitches.length then
        _get_note_number (valid_pitches.sum / (valid_pitches.length : ℝ))
      else 0
    else 0)

/-- Embeds `_find_relative_pitch` from backend/services/melody.py: the
consecutive note-number changes, where a zero change or a jump of at
least 22 semitones is skipped (`continue`) rather than kept or clipped. -/
def _find_relative_pitch (avg_pitch_values : List ℤ) : List ℤ :=
  (List.range (avg_pitch_values.length - 1)).filterMap (fun i =>
    let pitch_change :=
      -1 * (avg_pitch_values.getD i 0 - avg_pitch_values.getD (i + 1) 0)
    if pitch_change = 0 ∨ 22 ≤ |pitch_change| then none else some pitch_change)

/-! ## backend/services/dtw.py -/

/-- Feature dictionary consumed by `calculate_similarity`: the fields it
reads (`relative_pitches`, `tempo`). The Python `dict.get` defaults
never fire for the records built by the feature extractor, which always
populates both keys. -/
structure Features where
  relative_pitches : List ℝ
  tempo : ℝ

/-- Sum of squared deviations from the mean; `np.std(l) > 0` over exact
reals is equivalent to `0 < varSum l`. -/
noncomputable def varSum (l : List ℝ) : ℝ :=
  (l.map (fun x => (x - listMean l) ^ 2)).sum

/-- Pearson correlation coefficient of two equal-length lists,
`np.corrcoef(x, y)[0, 1]`: the covariance sum over the product of the
square roots of the variance sums (the 1 / n factors cancel). Defined
(and only used) when both variance sums are positive. -/
noncomputable def pearson (x y : List ℝ) : ℝ :=
  ((x.zip y).map (fun p => (p.1 - listMean x) * (p.2 - listMean y))).sum /
    (Real.sqrt (varSum x) * Real.sqrt (varSum y))

/-- Embeds `calculate_similarity` from backend/services/dtw.py. Empty
pitch lists short-circuit to 0. Tempo similarity is
`max(0, 1 - |dt| / max(tempos))`; pitch similarity is the Pearson
correlation of the length-truncated pitch lists floored at 0 when both
truncated lists have positive variance (`np.std > 0`), and 0.5
otherwise; over exact reals the correlation of two positive-variance
lists is never NaN, so the `np.isnan` fallback branch of the source is
unreachable and not modelled. The redundant inner nonemptiness test of
the source is subsumed by the outer one. The blend is
`(0.6 * pitch + 0.4 * tempo) * 100`, clamped to [0, 100]. -/
noncomputable def calculate_similarity (song_features user_features : Features) : ℝ :=
  if song_features.relative_pitches = [] ∨ user_features.relative_pitches = [] then 0
  else
    let song_tempo := song_features.tempo
    let user_tempo := user_features.tempo
    let tempo_diff := |song_tempo - user_tempo|
    let tempo_similarity := max 0 (1 - tempo_diff / max song_tempo user_tempo)
    let min_len := min song_features.relative_pitches.length
      user_features.relative_pitches.length
    let song_segment := song_features.relative_pitches.take min_len
    let user_segment := user_features.relative_pitches.take min_len
    let pitch_similarity :=
      if 0 < varSum song_segment ∧ 0 < varSum user_segment then
        max 0 (pearson song_segment user_segment)
      else 0.5
    let similarity := (0.6 * pitch_similarity + 0.4 * tempo_similarity) * 100
    max 0 (min 100 similarity)

/-- Modelled from the spec: the claimed correlation-based score, whose
pitch-similarity component is floored at 0 both when the correlation is
negative and when it is undefined because either truncated sequence has
zero variance. Identical to the source otherwise. -/
noncomputable def claim_calculate_similarity (song_features user_features : Features) : ℝ :=
  if song_features.relative_pitches = [] ∨ user_features.relative_pitches = [] then 0
  else
    let tempo_similarity :=
      max 0 (1 - |song_features.tempo - user_features.tempo| /
        max song_features.tempo user_features.tempo)
    let min_len := min song_features.relative_pitches.length
      user_features.relative_pitches.length
    let song_segment := song_features.relative_pitches.take min_len
    let user_segment := user_features.relative_pitches.take min_len
    let pitch_similarity :=
      if 0 < varSum song_segment ∧ 0 < varSum user_segment then
        max 0 (pearson song_segment user_segment)
      else 0
    max 0 (min 100 ((0.6 * pitch_similarity + 0.4 * tempo_similarity) * 100))

/-- Spec-side helper for the amended statement: tempo proximity. -/
noncomputable def tempo_proximity (a b : ℝ) : ℝ := max 0 (1 - |a - b| / max a b)

/-- Spec-side helper for the amended statement: pitch similarity as the
code computes it, with the 0.5 fallback on zero variance. -/
noncomputable def pitch_similarity_code (x y : List ℝ) : ℝ :=
  if 0 < varSum x ∧ 0 < varSum y then max 0 (pearson x y) else 0.5

/-! ## backend/services/matcher.py -/

/-- Song record as stored in the database list; the fields consumed by
`find_best_matches` and `calculate_similarity`. -/
structure Song where
  id : String
  name : String
  tempo : ℝ
  relative_pitches : List ℝ
  pitch_count : ℕ

/-- Match entry built by `find_best_matches` for each database song. -/
structure MatchEntry where
  id : String
  name : String
  similarity : ℝ
  tempo : ℝ
  pitch_count : ℕ

/-- Python `round(x, 1)`: half-to-even rounding at one decimal. -/
noncomputable def round1 (x : ℝ) : ℝ := ((npRoundR (x * 10) : ℤ) : ℝ) / 10

/-- The match dictionary built for one database song: the similarity is
`round(calculate_similarity(song, user), 1)` and the identifying fields
are copied through. -/
noncomputable def mkMatch (user_features : Features) (song : Song) : MatchEntry :=
  { id := song.id
    name := song.name
    similarity := round1 (calculate_similarity
      ⟨song.relative_pitches, song.tempo⟩ user_features)
    tempo := song.tempo
    pitch_count := song.pitch_count }

/-- Sort relation of `matches.sort(key=similarity, reverse=True)`:
`a` may precede `b` when its similarity is at least that of `b`. -/
def byDesc (a b : MatchEntry) : Prop := b.similarity ≤ a.similarity

instance : IsTotal MatchEntry byDesc := ⟨fun a b => le_total b.similarity a.similarity⟩

instance : IsTrans MatchEntry byDesc := ⟨fun _ _ _ h1 h2 => le_trans h2 h1⟩

noncomputable instance : DecidableRel byDesc := fun _ _ => Real.decidableLE _ _

/-- Embeds `find_best_matches` from backend/services/matcher.py: build
one match entry per database song, sort by similarity descending with
Python `list.sort` (a stable sort, modelled by the stable
`List.insertionSort`, which produces the same list as any stable sort
for this relation), and keep the first `top_n` entries (default 5).
The console logging of the source has no effect on the result. -/
noncomputable def find_best_matches (user_features : Features) (database : List Song)
    (top_n : ℕ := 5) : List MatchEntry :=
  let match_list := database.map (mkMatch user_features)
  (match_list.insertionSort byDesc).take top_n

/-! ## Helper lemmas -/

/-- A filterMap that either drops or keeps each element unchanged is a filter. -/
theorem filterMap_if_eq_filter {α : Type} (P : α → Prop) [DecidablePred P] (l : List α) :
    l.filterMap (fun z => if P z then none else some z) =
      l.filter (fun z => decide (¬ P z)) := by
  induction l with
  | nil => rfl
  | cons x t ih => by_cases h : P x <;> simp [List.filterMap_cons, List.filter_cons, h, ih]

/-- Unfolding lemma for first differences on a two-head list. -/
theorem npDiff_cons_cons {α : Type} [Sub α] (x y : α) (t : List α) :
    npDiff (x :: y :: t) = (y - x) :: npDiff (y :: t) := rfl

/-- The index-based difference map used by the melody module equals `np.diff`. -/
theorem range_map_diff (l : List ℤ) :
    (List.range (l.length - 1)).map
      (fun i => -1 * (l.getD i 0 - l.getD (i + 1) 0)) = npDiff l := by
  induction l with
  | nil => rfl
  | cons x t ih =>
    cases t with
    | nil => rfl
    | cons y t2 =>
      have hlen : (x :: y :: t2).length - 1 = ((y :: t2).length - 1) + 1 := by
        simp
      rw [hlen, List.range_succ_eq_map, List.map_cons, List.map_map, npDiff_cons_cons]
      refine congrArg₂ List.cons (by simp) ?_
      rw [← ih]
      refine List.map_congr_left (fun i _ => ?_)
      simp [Function.comp, List.getD_cons_succ]

/-! ## Claim C10 -/

/-- C10: every element of the relative-pitch sequence produced by
`_find_relative_pitch` is a nonzero value of absolute value strictly
below 22: the function is exactly the filter of the consecutive
note-number differences that silently drops zero changes and jumps of
at least 22 semitones, rather than keeping or clipping them. -/
theorem find_relative_pitch_invariant (avg_pitch_values : List ℤ) :
    _find_relative_pitch avg_pitch_values =
      (npDiff avg_pitch_values).filter (fun p => decide (p ≠ 0 ∧ |p| < 22))
  ∧ ∀ p ∈ _find_relative_pitch avg_pitch_values, p ≠ 0 ∧ |p| < 22 := by
  have hmain : _find_relative_pitch avg_pitch_values =
      (npDiff avg_pitch_values).filter (fun p => decide (p ≠ 0 ∧ |p| < 22)) := by
    unfold _find_relative_pitch
    have hcomp : (List.range (avg_pitch_values.length - 1)).filterMap (fun i =>
        let pitch_change := -1 *
          (avg_pitch_values.getD i 0 - avg_pitch_values.getD (i + 1) 0)
        if pitch_change = 0 ∨ 22 ≤ |pitch_change| then none else some pitch_change) =
        ((List.range (avg_pitch_values.length - 1)).map (fun i =>
          -1 * (avg_pitch_values.getD i 0 - avg_pitch_values.getD (i + 1) 0))).filterMap
          (fun z => if z = 0 ∨ 22 ≤ |z| then none else some z) := by
      rw [List.filterMap_map]
      rfl
    rw [hcomp, range_map_diff, filterMap_if_eq_filter]
    refine List.filter_congr (fun z _ => ?_)
    simp only [decide_eq_decide]
    constructor
    · intro h
      push_neg at h
      exact h
    · intro h
      push_neg
      exact h
  refine ⟨hmain, fun p hp => ?_⟩
  rw [hmain] at hp
  have := List.of_mem_filter hp
  exact of_decide_eq_true this

/-- Witness for C10 at a concrete note-number list: the difference 4 is
kept, the zero change and the jumps 36 and -47 are dropped. -/
theorem find_relative_pitch_invariant_witness :
    _find_relative_pitch [10, 14, 50, 3, 3] = [4] ∧ (4 : ℤ) ≠ 0 ∧ |(4 : ℤ)| < 22 :=
  ⟨by decide, (find_relative_pitch_invariant [10, 14, 50, 3, 3]).2 4 (by decide)⟩

/-! ## Claim C8 -/

/-- C8: on an empty song database the matcher returns an empty result
list to the caller instead of failing: there is nothing to map, sort or
truncate. -/
theorem find_best_matches_empty_corpus (user_features : Features) (top_n : ℕ) :
    find_best_matches user_features [] top_n = [] := by
  simp [find_best_matches, List.insertionSort]

/-! ## Claim C2 -/

/-- C2 counterexample: on the pitch sequence `[0, 5]` the source
`normalize_to_intervals` returns the clipped rounded difference `[5]`
unchanged, while the claimed derivation, which mean-subtracts the
interval sequence as a final step, would return `[0]`; no mean
subtraction happens in the source. -/
theorem normalize_to_intervals_no_mean_subtraction :
    normalize_to_intervals [0, 5] = [5]
  ∧ claim_normalize_to_intervals [0, 5] = [0]
  ∧ normalize_to_intervals [0, 5] ≠ claim_normalize_to_intervals [0, 5] := by
  refine ⟨?_, ?_, ?_⟩
  · norm_num [normalize_to_intervals, npDiff, npRound]
  · norm_num [claim_normalize_to_intervals, npDiff, npRound, listMean]
  · norm_num [normalize_to_intervals, claim_normalize_to_intervals, npDiff, npRound,
      listMean]

/-- C2 amended: the IntervalContour derivation takes first differences
of the cleaned pitch sequence, rounds each difference half-to-even to
an integer semitone and clips it to [-7, 7]; no mean subtraction is
performed (sequences shorter than 2 samples give the empty interval
list, which the fused right-hand side also produces). -/
theorem normalize_to_intervals_eq_clipped_rounded_diff (pitch_midi : List ℚ) :
    normalize_to_intervals pitch_midi =
      (npDiff pitch_midi).map (fun d => min 7 (max (-7) ((npRound d : ℤ) : ℚ))) := by
  unfold normalize_to_intervals
  by_cases h : pitch_midi.length < 2
  · rw [if_pos h]
    match pitch_midi, h with
    | [], _ => rfl
    | [x], _ => rfl
  · rw [if_neg h, List.map_map]
    rfl

/-! ## Claim C4 -/

/-- C4 counterexample: on empty input the code silently returns a valid
zero score rather than failing with a MalformedContour error: the
similarity scorer returns 0.0 when both pitch lists are empty, and the
DTW wrapper returns a normalized distance of 0 on two empty sequences. -/
theorem empty_input_silent_zero :
    calculate_similarity ⟨[], 120⟩ ⟨[], 120⟩ = 0
  ∧ (compute_dtw_distance [] []).1 = 0 := by
  constructor
  · simp [calculate_similarity]
  · norm_num [compute_dtw_distance, dtwPair]

/-- C4 amended: no MalformedContour failure exists in the code; when
either input pitch sequence is empty, `calculate_similarity` silently
returns the valid score 0.0 to its caller, and the DTW wrapper yields
distance 0 on two empty sequences. -/
theorem calculate_similarity_empty_amended (song_features user_features : Features)
    (h : song_features.relative_pitches = [] ∨ user_features.relative_pitches = []) :
    calculate_similarity song_features user_features = 0
  ∧ (compute_dtw_distance [] []).1 = 0 := by
  constructor
  · unfold calculate_similarity
    rw [if_pos h]
  · norm_num [compute_dtw_distance, dtwPair]

/-- Witness for the amended C4 statement at a concrete nonempty/empty
feature pair. -/
theorem calculate_similarity_empty_amended_witness :
    calculate_similarity ⟨[], 97⟩ ⟨[3, 4], 88⟩ = 0
  ∧ (compute_dtw_distance [] []).1 = 0 :=
  calculate_similarity_empty_amended ⟨[], 97⟩ ⟨[3, 4], 88⟩ (Or.inl rfl)

/-! ## Claim C6 -/

/-- Subtracting the mean from every element makes the sum vanish. -/
theorem sum_map_sub_listMean (l : List ℚ) :
    (l.map (fun x => x - listMean l)).sum = 0 := by
  rcases eq_or_ne l [] with rfl | h
  · rfl
  · have key : ∀ (c : ℚ) (m : List ℚ),
        (m.map (fun x => x - c)).sum = m.sum - m.length * c := by
      intro c m
      induction m with
      | nil => simp
      | cons a t ih =>
        simp only [List.map_cons, List.sum_cons, ih, List.length_cons]
        push_cast
        ring
    have hn : (l.length : ℚ) ≠ 0 := by
      exact_mod_cast fun h0 => h (List.length_eq_zero.mp h0)
    rw [key, listMean]
    field_simp

/-- The median filter preserves length. -/
theorem medfilt_length (l : List ℚ) (k : ℕ) : (medfilt l k).length = l.length := by
  simp [medfilt]

/-- C6: whenever the pitch normalizer succeeds (enough voiced frames
survive the invalid-frame removal), the produced contour sums, hence
averages, to exactly zero, because the mean is subtracted as the final
step; this holds for both normalization pipelines (the dsp_utils
`extract_pitch` with median smoothing and percentile clipping, and the
dsp_engine `normalize_pitch_contour`), for every pointwise semitone
conversion. -/
theorem pitch_normalizer_zero_mean :
    (∀ (hz_to_midi : ℚ → ℚ) (f0 : List (Option ℚ)) (out : List ℚ),
        extract_pitch hz_to_midi f0 = some out → out.sum = 0 ∧ 15 ≤ out.length)
  ∧ (∀ (hz_to_midi : ℚ → ℚ) (f0 : List (Option ℚ)) (out : List ℚ),
        normalize_pitch_contour hz_to_midi f0 = some out →
          out.sum = 0 ∧ MIN_VALID_FRAMES ≤ out.length) := by
  constructor
  · intro conv f0 out h
    simp only [extract_pitch] at h
    split at h
    · exact absurd h (by simp)
    · rename_i hlen
      rw [Option.some_inj] at h
      subst h
      refine ⟨sum_map_sub_listMean _, ?_⟩
      rw [List.length_map, List.length_map, List.length_map]
      have hfilt : ∀ (m : List ℚ) (k : ℕ),
          (if 3 ≤ k then medfilt m k else m).length = m.length := by
        intro m k
        split
        · exact medfilt_length m k
        · rfl
      rw [hfilt]
      omega
  · intro conv f0 out h
    simp only [normalize_pitch_contour] at h
    split at h
    · exact absurd h (by simp)
    · rename_i hlen
      rw [Option.some_inj] at h
      subst h
      refine ⟨sum_map_sub_listMean _, ?_⟩
      rw [List.length_map]
      omega

/-- A concrete 15-voiced-frame input is accepted by `extract_pitch`. -/
theorem extract_pitch_accepts_concrete :
    ∃ out, extract_pitch id (List.replicate 15 (some 60) ++ [none]) = some out :=
  ⟨_, rfl⟩

/-- A concrete 10-voiced-frame input is accepted by
`normalize_pitch_contour`. -/
theorem normalize_pitch_contour_accepts_concrete :
    ∃ out, normalize_pitch_contour id (List.replicate 10 (some 3) ++ [none]) =
      some out :=
  ⟨_, rfl⟩

/-- Witness for C6: a constant 60-semitone contour of 15 voiced frames
(plus one unvoiced frame) is accepted by the full dsp_utils pipeline
and normalizes to a zero-sum contour, and likewise a 10-frame contour
through the dsp_engine pipeline. -/
theorem pitch_normalizer_zero_mean_witness :
    (∃ out, extract_pitch id (List.replicate 15 (some 60) ++ [none]) = some out ∧
      out.sum = 0 ∧ 15 ≤ out.length)
  ∧ (∃ out, normalize_pitch_contour id (List.replicate 10 (some 3) ++ [none]) =
      some out ∧ out.sum = 0 ∧ MIN_VALID_FRAMES ≤ out.length) := by
  obtain ⟨out1, h1⟩ := extract_pitch_accepts_concrete
  obtain ⟨out2, h2⟩ := normalize_pitch_contour_accepts_concrete
  exact ⟨⟨out1, h1, pitch_normalizer_zero_mean.1 _ _ _ h1⟩,
    ⟨out2, h2, pitch_normalizer_zero_mean.2 _ _ _ h2⟩⟩

/-! ## Claim C7 -/

/-- The three-way minimum never exceeds its third candidate cost. -/
theorem min3_fst_le_right (a b c : ℚ × ℕ) : (min3 a b c).1 ≤ c.1 := by
  unfold min3
  show (if c.1 < (if b.1 < a.1 then b else a).1 then c
    else (if b.1 < a.1 then b else a)).1 ≤ c.1
  by_cases h2 : c.1 < (if b.1 < a.1 then b else a).1
  · rw [if_pos h2]
  · rw [if_neg h2]
    exact le_of_not_lt h2

/-- The three-way minimum of nonnegative costs is nonnegative. -/
theorem min3_fst_nonneg {a b c : ℚ × ℕ} (ha : 0 ≤ a.1) (hb : 0 ≤ b.1)
    (hc : 0 ≤ c.1) : 0 ≤ (min3 a b c).1 := by
  unfold min3
  show 0 ≤ (if c.1 < (if b.1 < a.1 then b else a).1 then c
    else (if b.1 < a.1 then b else a)).1
  by_cases h2 : c.1 < (if b.1 < a.1 then b else a).1
  · rw [if_pos h2]
    exact hc
  · rw [if_neg h2]
    by_cases h1 : b.1 < a.1
    · rw [if_pos h1]
      exact hb
    · rw [if_neg h1]
      exact ha

/-- The DTW path cost is a sum of absolute values, hence nonnegative. -/
theorem dtwPair_fst_nonneg (x y : List ℚ) : 0 ≤ (dtwPair x y).1 := by
  induction x, y using dtwPair.induct with
  | case1 => simp [dtwPair]
  | case2 => simp [dtwPair]
  | case3 => simp [dtwPair, abs_nonneg]
  | case4 x y y2 ys ih =>
    simp only [dtwPair]
    exact add_nonneg (abs_nonneg _) ih
  | case5 x x2 xs y ih =>
    simp only [dtwPair]
    exact add_nonneg (abs_nonneg _) ih
  | case6 x x2 xs y y2 ys ih1 ih2 ih3 =>
    simp only [dtwPair]
    exact add_nonneg (abs_nonneg _) (min3_fst_nonneg ih1 ih2 ih3)

/-- Aligning a nonempty sequence against itself realizes cost zero. -/
theorem dtwPair_self_fst (a : List ℚ) (h : a ≠ []) : (dtwPair a a).1 = 0 := by
  induction a with
  | nil => exact absurd rfl h
  | cons x xs ih =>
    cases xs with
    | nil => simp [dtwPair]
    | cons x2 t =>
      have hdiag : (dtwPair (x2 :: t) (x2 :: t)).1 = 0 := ih (List.cons_ne_nil _ _)
      simp only [dtwPair]
      have hub : (min3 (dtwPair (x2 :: t) (x :: x2 :: t))
          (dtwPair (x :: x2 :: t) (x2 :: t)) (dtwPair (x2 :: t) (x2 :: t))).1 ≤ 0 := by
        calc (min3 _ _ _).1 ≤ (dtwPair (x2 :: t) (x2 :: t)).1 := min3_fst_le_right _ _ _
        _ = 0 := hdiag
      have hlb : 0 ≤ (min3 (dtwPair (x2 :: t) (x :: x2 :: t))
          (dtwPair (x :: x2 :: t) (x2 :: t)) (dtwPair (x2 :: t) (x2 :: t))).1 :=
        min3_fst_nonneg (dtwPair_fst_nonneg _ _) (dtwPair_fst_nonneg _ _)
          (dtwPair_fst_nonneg _ _)
      have hz := le_antisymm hub hlb
      simp [hz]

/-- C7: for every nonempty sequence, the alignment of the sequence with
itself has distance 0 and normalized score 0, the normalized score
being the distance divided by the path length plus one. -/
theorem dtw_self_distance_zero (a : List ℚ) (h : a ≠ []) :
    (dtwPair a a).1 = 0 ∧ (compute_dtw_distance a a).1 = 0 := by
  have h1 := dtwPair_self_fst a h
  refine ⟨h1, ?_⟩
  simp [compute_dtw_distance, h1]

/-- Witness for C7 on a concrete three-note sequence. -/
theorem dtw_self_distance_zero_witness :
    ([1, 3/2, -2] : List ℚ) ≠ []
  ∧ (dtwPair [1, 3/2, -2] [1, 3/2, -2]).1 = 0
  ∧ (compute_dtw_distance [1, 3/2, -2] [1, 3/2, -2]).1 = 0 :=
  ⟨List.cons_ne_nil _ _,
   (dtw_self_distance_zero [1, 3/2, -2] (List.cons_ne_nil _ _)).1,
   (dtw_self_distance_zero [1, 3/2, -2] (List.cons_ne_nil _ _)).2⟩

/-! ## Claim C1 -/

/-- C1 counterexample: on the features `([0, 1], tempo 120)` against
`([5, 5], tempo 120)` the user segment has zero variance, so the source
assigns pitch similarity 0.5 and scores 70, while the claimed variant,
which floors the undefined correlation at 0, scores 40. -/
theorem calculate_similarity_zero_variance_ne_claim :
    calculate_similarity ⟨[0, 1], 120⟩ ⟨[5, 5], 120⟩ = 70
  ∧ claim_calculate_similarity ⟨[0, 1], 120⟩ ⟨[5, 5], 120⟩ = 40
  ∧ calculate_similarity ⟨[0, 1], 120⟩ ⟨[5, 5], 120⟩ ≠
      claim_calculate_similarity ⟨[0, 1], 120⟩ ⟨[5, 5], 120⟩ := by
  have h1 : calculate_similarity ⟨[0, 1], 120⟩ ⟨[5, 5], 120⟩ = 70 := by
    norm_num [calculate_similarity, varSum, listMean, max_def, min_def, List.cons_ne_nil]
  have h2 : claim_calculate_similarity ⟨[0, 1], 120⟩ ⟨[5, 5], 120⟩ = 40 := by
    norm_num [claim_calculate_similarity, varSum, listMean, max_def, min_def, List.cons_ne_nil]
  refine ⟨h1, h2, ?_⟩
  rw [h1, h2]
  norm_num

/-- C1 amended: for nonempty pitch lists the score is the clamped blend
`max(0, min(100, (0.6 * pitch + 0.4 * tempo) * 100))` where the tempo
term is the documented proximity and the pitch term is the Pearson
correlation of the truncated segments floored at 0 when negative, but
equal to 0.5 (not 0) when either truncated segment has zero variance. -/
theorem calculate_similarity_amended (song_features user_features : Features)
    (hs : song_features.relative_pitches ≠ [])
    (hu : user_features.relative_pitches ≠ []) :
    calculate_similarity song_features user_features =
      max 0 (min 100 ((0.6 * pitch_similarity_code
          (song_features.relative_pitches.take
            (min song_features.relative_pitches.length
              user_features.relative_pitches.length))
          (user_features.relative_pitches.take
            (min song_features.relative_pitches.length
              user_features.relative_pitches.length)) +
        0.4 * tempo_proximity song_features.tempo user_features.tempo) * 100)) := by
  unfold calculate_similarity pitch_similarity_code tempo_proximity
  rw [if_neg (by simp [hs, hu])]

/-- Witness for the amended C1 statement on concrete features. -/
theorem calculate_similarity_amended_witness :
    calculate_similarity ⟨[0, 2], 100⟩ ⟨[1, 5], 100⟩ =
      max 0 (min 100 ((0.6 * pitch_similarity_code
          (List.take (min 2 2) [0, 2]) (List.take (min 2 2) [1, 5]) +
        0.4 * tempo_proximity 100 100) * 100)) :=
  calculate_similarity_amended ⟨[0, 2], 100⟩ ⟨[1, 5], 100⟩ (by simp) (by simp)

/-! ## Claim C3 -/

/-- C3 counterexample: with two equal-similarity songs stored in the
database as `"b"` before `"a"`, the ranker returns `"b"` first: the
Python sort is stable and keeps database order on ties, so ties are not
broken by ascending song identifier (which would put `"a"` first). -/
theorem find_best_matches_no_id_tiebreak :
    find_best_matches ⟨[], 120⟩
      [⟨"b", "b", 120, [], 0⟩, ⟨"a", "a", 120, [], 0⟩] 5 =
      [⟨"b", "b", 0, 120, 0⟩, ⟨"a", "a", 0, 120, 0⟩]
  ∧ (⟨"b", "b", 0, 120, 0⟩ : MatchEntry).similarity =
      (⟨"a", "a", 0, 120, 0⟩ : MatchEntry).similarity
  ∧ (⟨"a", "a", 0, 120, 0⟩ : MatchEntry).id <
      (⟨"b", "b", 0, 120, 0⟩ : MatchEntry).id := by
  have hsim : round1 (calculate_similarity ⟨[], 120⟩ ⟨[], 120⟩) = 0 := by
    have h0 : calculate_similarity ⟨[], 120⟩ ⟨[], 120⟩ = 0 := by
      simp [calculate_similarity]
    rw [h0]
    norm_num [round1, npRoundR]
  refine ⟨?_, rfl, by rw [String.lt_iff_toList_lt]; decide⟩
  simp only [find_best_matches, List.map_cons, List.map_nil, mkMatch, hsim]
  simp only [List.insertionSort, List.orderedInsert]
  have hbd : byDesc (⟨"b", "b", 0, 120, 0⟩ : MatchEntry) ⟨"a", "a", 0, 120, 0⟩ :=
    le_refl 0
  rw [if_pos hbd]
  simp [List.take]

/-- C3 amended: the ranker output is the first `top_n` entries (default
5) of the per-song match list sorted by non-increasing similarity; the
sorted list is a permutation of the match list, and equal-similarity
entries are left in database order (the Python sort is stable), not
reordered by ascending song identifier: any database-ordered pair whose
first entry scores at least the second keeps its relative order. -/
theorem find_best_matches_sorted_stable (user_features : Features)
    (database : List Song) (top_n : ℕ) :
    find_best_matches user_features database top_n =
      ((database.map (mkMatch user_features)).insertionSort byDesc).take top_n
  ∧ (find_best_matches user_features database top_n).length =
      min top_n database.length
  ∧ (find_best_matches user_features database top_n).Sorted byDesc
  ∧ ((database.map (mkMatch user_features)).insertionSort byDesc).Perm
      (database.map (mkMatch user_features))
  ∧ ∀ a b : MatchEntry, byDesc a b →
      List.Sublist [a, b] (database.map (mkMatch user_features)) →
      List.Sublist [a, b]
        ((database.map (mkMatch user_features)).insertionSort byDesc) := by
  refine ⟨rfl, ?_, ?_, List.perm_insertionSort _ _, ?_⟩
  · simp [find_best_matches]
  · exact List.Pairwise.sublist (List.take_sublist _ _)
      (List.sorted_insertionSort byDesc _)
  · intro a b hab hsub
    exact List.pair_sublist_insertionSort hab hsub

/-- Witness for the amended C3 statement: two songs with identical
features keep their database order through the sort. -/
theorem find_best_matches_sorted_stable_witness :
    (find_best_matches ⟨[3], 110⟩
      [⟨"x", "x", 110, [2], 1⟩, ⟨"y", "y", 110, [2], 1⟩] 5).Sorted byDesc
  ∧ List.Sublist [mkMatch ⟨[3], 110⟩ ⟨"x", "x", 110, [2], 1⟩,
      mkMatch ⟨[3], 110⟩ ⟨"y", "y", 110, [2], 1⟩]
      ((List.map (mkMatch ⟨[3], 110⟩)
        [⟨"x", "x", 110, [2], 1⟩, ⟨"y", "y", 110, [2], 1⟩]).insertionSort byDesc) :=
  ⟨(find_best_matches_sorted_stable ⟨[3], 110⟩
      [⟨"x", "x", 110, [2], 1⟩, ⟨"y", "y", 110, [2], 1⟩] 5).2.2.1,
   (find_best_matches_sorted_stable ⟨[3], 110⟩
      [⟨"x", "x", 110, [2], 1⟩, ⟨"y", "y", 110, [2], 1⟩] 5).2.2.2.2 _ _
     (le_refl _) (List.Sublist.refl _)⟩

/-! ## Claim C5 -/

/-- Number of full windows the sliding loop emits from offset `start`:
zero when no full window fits, else one plus one per further step. -/
def kFrom (n W s start : ℕ) : ℕ :=
  if start + W ≤ n then (n - (start + W)) / s + 1 else 0

/-- One loop step consumes exactly one full window. -/
theorem kFrom_step {n W s start : ℕ} (hs : 0 < s) (hfit : start + W ≤ n) :
    kFrom n W s start = kFrom n W s (start + s) + 1 := by
  unfold kFrom
  rw [if_pos hfit]
  by_cases h2 : start + s + W ≤ n
  · rw [if_pos h2]
    have harith : n - (start + W) = (n - (start + s + W)) + s := by omega
    rw [harith, Nat.add_div_right _ hs]
  · rw [if_neg h2]
    have hlt : n - (start + W) < s := by omega
    rw [Nat.div_eq_of_lt hlt]

/-- Closed-form characterization of the sliding-window loop: from any
start offset it emits the full windows at `start, start + s, …` and
then the final partial window exactly when the residual is at least
`MIN_VALID_FRAMES` frames long. -/
theorem windowLoop_char (contour : List ℚ) (W s : ℕ) (hs : 0 < s) :
    ∀ start, windowLoop contour W s start =
      ((List.range (kFrom contour.length W s start)).map
        (fun i => (start + i * s, (contour.drop (start + i * s)).take W))) ++
      (if start + kFrom contour.length W s start * s < contour.length ∧
          MIN_VALID_FRAMES ≤
            contour.length - (start + kFrom contour.length W s start * s) then
        [(start + kFrom contour.length W s start * s,
          contour.drop (start + kFrom contour.length W s start * s))]
      else []) := by
  suffices hmain : ∀ fuel start, contour.length + 1 - start ≤ fuel →
      windowLoop contour W s start =
        ((List.range (kFrom contour.length W s start)).map
          (fun i => (start + i * s, (contour.drop (start + i * s)).take W))) ++
        (if start + kFrom contour.length W s start * s < contour.length ∧
            MIN_VALID_FRAMES ≤
              contour.length - (start + kFrom contour.length W s start * s) then
          [(start + kFrom contour.length W s start * s,
            contour.drop (start + kFrom contour.length W s start * s))]
        else []) by
    intro start
    exact hmain (contour.length + 1 - start) start (le_refl _)
  intro fuel
  induction fuel with
  | zero =>
    intro start h0
    have hgt : contour.length < start := by omega
    have hk : kFrom contour.length W s start = 0 := by
      unfold kFrom
      rw [if_neg (by omega)]
    rw [windowLoop, dif_neg (by omega), if_neg (by omega), hk]
    simp only [List.range_zero, List.map_nil, List.nil_append, Nat.zero_mul,
      Nat.add_zero]
    rw [if_neg (by omega)]
  | succ fuel ih =>
    intro start hle
    by_cases hfit : start + W ≤ contour.length
    · rw [windowLoop, dif_pos hfit, dif_pos hs, ih (start + s) (by omega),
        kFrom_step hs hfit, List.range_succ_eq_map, List.map_cons, List.map_map]
      simp only [Nat.zero_mul, Nat.add_zero, List.cons_append]
      refine congrArg₂ List.cons rfl (congrArg₂ List.append ?_ ?_)
      · refine List.map_congr_left (fun i _ => ?_)
        have harith : start + s + i * s = start + (i + 1) * s := by ring
        simp [Function.comp, harith]
      · have harith : start + s + kFrom contour.length W s (start + s) * s =
            start + (kFrom contour.length W s (start + s) + 1) * s := by ring
        rw [harith]
    · have hk : kFrom contour.length W s start = 0 := by
        unfold kFrom
        rw [if_neg hfit]
      rw [windowLoop, dif_neg hfit, hk]
      simp only [List.range_zero, List.map_nil, List.nil_append, Nat.zero_mul,
        Nat.add_zero]
      by_cases h1 : start < contour.length
      · by_cases h2 : MIN_VALID_FRAMES ≤ contour.length - start
        · rw [if_pos h1, if_pos h2, if_pos ⟨h1, h2⟩]
        · rw [if_pos h1, if_neg h2, if_neg (by tauto)]
      · rw [if_neg h1, if_neg (by tauto)]

/-- C5: with a positive step of `s` frames and window length `W` frames
(as computed from the window and overlap durations), the windowing
function emits full windows starting exactly at `0, s, 2s, …` for as
long as `start + W ≤ contour length` (and at no further offset), then
one final partial window covering the remainder exactly when the
residual frame count is at least `MIN_VALID_FRAMES`; no emitted window
extends past the contour end. -/
theorem create_sliding_windows_coverage
    (contour : List ℚ) (sr window_sec overlap_sec : ℚ) (W s k : ℕ)
    (hW : W = (pyInt (window_sec * (sr / (HOP_LENGTH : ℚ)))).toNat)
    (hs' : s = (pyInt ((window_sec - overlap_sec) * (sr / (HOP_LENGTH : ℚ)))).toNat)
    (hk : k = kFrom contour.length W s 0)
    (hs : 0 < s) :
    create_sliding_windows contour sr window_sec overlap_sec =
      (windowLoop contour W s 0).map
        (fun p => (p.2, (p.1 : ℚ) / (sr / (HOP_LENGTH : ℚ))))
  ∧ windowLoop contour W s 0 =
      ((List.range k).map (fun i => (i * s, (contour.drop (i * s)).take W))) ++
        (if MIN_VALID_FRAMES ≤ contour.length - k * s then
          [(k * s, contour.drop (k * s))] else [])
  ∧ (∀ i, i < k → i * s + W ≤ contour.length)
  ∧ ¬(k * s + W ≤ contour.length)
  ∧ ∀ p ∈ windowLoop contour W s 0, p.1 + p.2.length ≤ contour.length := by
  have hfull : ∀ i, i < k → i * s + W ≤ contour.length := by
    intro i hik
    unfold kFrom at hk
    by_cases hWn : 0 + W ≤ contour.length
    · rw [if_pos hWn] at hk
      have hi : i ≤ (contour.length - (0 + W)) / s := by omega
      have h1 : i * s ≤ ((contour.length - (0 + W)) / s) * s :=
        Nat.mul_le_mul_right s hi
      have h2 : ((contour.length - (0 + W)) / s) * s ≤ contour.length - (0 + W) :=
        Nat.div_mul_le_self _ _
      omega
    · rw [if_neg hWn] at hk
      omega
  have hmax : ¬(k * s + W ≤ contour.length) := by
    unfold kFrom at hk
    by_cases hWn : 0 + W ≤ contour.length
    · rw [if_pos hWn] at hk
      intro hcon
      rw [hk] at hcon
      have hexp : ((contour.length - (0 + W)) / s + 1) * s =
          s * ((contour.length - (0 + W)) / s) + s := by ring
      rw [hexp] at hcon
      have hq := Nat.div_add_mod (contour.length - (0 + W)) s
      have hr : (contour.length - (0 + W)) % s < s := Nat.mod_lt _ hs
      generalize hP : s * ((contour.length - (0 + W)) / s) = P at hq hcon
      omega
    · rw [if_neg hWn] at hk
      omega
  have hchar : windowLoop contour W s 0 =
      ((List.range k).map (fun i => (i * s, (contour.drop (i * s)).take W))) ++
        (if MIN_VALID_FRAMES ≤ contour.length - k * s then
          [(k * s, contour.drop (k * s))] else []) := by
    rw [windowLoop_char contour W s hs 0, ← hk]
    simp only [Nat.zero_add]
    refine congrArg₂ List.append rfl ?_
    have hiff : (k * s < contour.length ∧
        MIN_VALID_FRAMES ≤ contour.length - k * s) ↔
        MIN_VALID_FRAMES ≤ contour.length - k * s := by
      have hmin : MIN_VALID_FRAMES = 10 := rfl
      generalize k * s = B
      omega
    rw [if_congr hiff rfl rfl]
  refine ⟨?_, hchar, hfull, hmax, ?_⟩
  · subst hW hs'
    rfl
  · intro p hp
    rw [hchar] at hp
    rcases List.mem_append.mp hp with hmem | hmem
    · obtain ⟨i, hi, hpe⟩ := List.mem_map.mp hmem
      have hik := List.mem_range.mp hi
      have hW2 := hfull i hik
      subst hpe
      simp only [List.length_take, List.length_drop]
      generalize hB : i * s = B at hW2 ⊢
      omega
    · by_cases hcond : MIN_VALID_FRAMES ≤ contour.length - k * s
      · rw [if_pos hcond] at hmem
        rw [List.mem_singleton] at hmem
        subst hmem
        simp only [List.length_drop]
        have hmin : MIN_VALID_FRAMES = 10 := rfl
        generalize hB : k * s = B at hcond ⊢
        omega
      · rw [if_neg hcond] at hmem
        exact absurd hmem (List.not_mem_nil _)

/-- Concrete 25-frame contour used to witness the windowing theorem. -/
def witnessContour : List ℚ := (List.range 25).map (fun n => (n : ℚ))

/-- Witness for C5: at sample rate 512 (one frame per second), a
12-second window and a 7-second overlap give `W = 12` and `s = 5` on a
25-frame contour; the theorem applies with three full windows and a
10-frame partial tail. -/
theorem create_sliding_windows_coverage_witness :
    create_sliding_windows witnessContour 512 12 7 =
      (windowLoop witnessContour 12 5 0).map
        (fun p => (p.2, (p.1 : ℚ) / ((512 : ℚ) / (HOP_LENGTH : ℚ))))
  ∧ (∀ i, i < kFrom witnessContour.length 12 5 0 →
      i * 5 + 12 ≤ witnessContour.length)
  ∧ ¬(kFrom witnessContour.length 12 5 0 * 5 + 12 ≤ witnessContour.length) :=
  ⟨(create_sliding_windows_coverage witnessContour 512 12 7 12 5
      (kFrom witnessContour.length 12 5 0)
      (by norm_num [pyInt, HOP_LENGTH]; rfl)
      (by norm_num [pyInt, HOP_LENGTH]; rfl) rfl (by norm_num)).1,
   (create_sliding_windows_coverage witnessContour 512 12 7 12 5
      (kFrom witnessContour.length 12 5 0)
      (by norm_num [pyInt, HOP_LENGTH]; rfl)
      (by norm_num [pyInt, HOP_LENGTH]; rfl) rfl (by norm_num)).2.2.1,
   (create_sliding_windows_coverage witnessContour 512 12 7 12 5
      (kFrom witnessContour.length 12 5 0)
      (by norm_num [pyInt, HOP_LENGTH]; rfl)
      (by norm_num [pyInt, HOP_LENGTH]; rfl) rfl (by norm_num)).2.2.2.1⟩

/-! ## Claim C9 -/

/-- Python `int` truncation is monotone. -/
theorem pyInt_mono {a b : ℚ} (h : a ≤ b) : pyInt a ≤ pyInt b := by
  unfold pyInt
  by_cases ha : 0 ≤ a
  · rw [if_pos ha, if_pos (le_trans ha h)]
    exact Int.floor_le_floor h
  · rw [if_neg ha]
    by_cases hb : 0 ≤ b
    · rw [if_pos hb]
      calc (⌈a⌉ : ℤ) ≤ 0 := Int.ceil_le.mpr (by exact_mod_cast le_of_lt (lt_of_not_le ha))
      _ ≤ ⌊b⌋ := Int.floor_nonneg.mpr hb
    · rw [if_neg hb]
      exact Int.ceil_le_ceil h

/-- Python `int` truncation preserves nonnegativity. -/
theorem pyInt_nonneg {q : ℚ} (h : 0 ≤ q) : 0 ≤ pyInt q := by
  unfold pyInt
  rw [if_pos h]
  exact Int.floor_nonneg.mpr h

/-- Two lists of equal length that agree up to position `B` produce the
same Python slice whenever the slice ends at or before `B`. -/
theorem pySlice_congr {α : Type} (l1 l2 : List α) (s e : ℤ) (B : ℕ)
    (hlen : l1.length = l2.length) (htake : l1.take B = l2.take B)
    (he : pyIdx l1.length e ≤ B) :
    pySlice l1 s e = pySlice l2 s e := by
  unfold pySlice
  rw [show l2.length = l1.length from hlen.symm]
  refine congrArg _ ?_
  have h1 : l1.take (pyIdx l1.length e) = (l1.take B).take (pyIdx l1.length e) := by
    rw [List.take_take, min_eq_left he]
  have h2 : l2.take (pyIdx l1.length e) = (l2.take B).take (pyIdx l1.length e) := by
    rw [List.take_take, min_eq_left he]
  rw [h1, h2, htake]

/-- C9: the boundary table of `_pitches_per_interval` has one more
entry than there are onsets, yet `_average_per_interval` produces only
`len(onsets) - 1` values, and its output is unchanged by arbitrary
modification of the pitch frames at or beyond the frame index of the
last onset (the table entry before the appended total): the final
interval between the last onset and the end of the audio never
contributes. -/
theorem onset_interval_final_dropped
    (audio_length : ℕ) (pv1 pv2 : List ℝ) (onsets : List ℚ)
    (hpos : 0 < audio_length)
    (hne : onsets ≠ [])
    (hsorted : onsets.Sorted (· ≤ ·))
    (hnn : ∀ t ∈ onsets, 0 ≤ t)
    (hlen : pv1.length = pv2.length)
    (htake : pv1.take (((_pitches_per_interval audio_length pv1 onsets).getD
        (onsets.length - 1) 0).toNat) =
      pv2.take (((_pitches_per_interval audio_length pv1 onsets).getD
        (onsets.length - 1) 0).toNat)) :
    (_pitches_per_interval audio_length pv1 onsets).length = onsets.length + 1
  ∧ (_average_per_interval pv1 (_pitches_per_interval audio_length pv1 onsets)
      onsets).length = onsets.length - 1
  ∧ _average_per_interval pv1 (_pitches_per_interval audio_length pv1 onsets)
      onsets =
    _average_per_interval pv2 (_pitches_per_interval audio_length pv2 onsets)
      onsets := by
  have hN : 0 < onsets.length := List.length_pos.mpr hne
  have hget : ∀ (pv : List ℝ) (j : ℕ) (hj : j < onsets.length),
      (_pitches_per_interval audio_length pv onsets).getD j 0 =
        pyInt (onsets.get ⟨j, hj⟩ /
          ((audio_length : ℚ) / (SAMPLE_RATE : ℚ)) * (pv.length : ℚ)) := by
    intro pv j hj
    simp only [_pitches_per_interval]
    rw [List.getD_eq_getElem?_getD, List.getElem?_append, if_pos (by simpa using hj),
      List.getElem?_map, List.getElem?_eq_getElem hj]
    simp
  have htbl : _pitches_per_interval audio_length pv2 onsets =
      _pitches_per_interval audio_length pv1 onsets := by
    unfold _pitches_per_interval
    rw [hlen]
  refine ⟨?_, ?_, ?_⟩
  · unfold _pitches_per_interval
    simp
  · unfold _average_per_interval
    simp
  · rw [htbl]
    unfold _average_per_interval
    refine List.map_congr_left (fun i hi => ?_)
    have hilt : i < onsets.length - 1 := List.mem_range.mp hi
    have hi1 : i + 1 < onsets.length := by omega
    have hiN : onsets.length - 1 < onsets.length := by omega
    have hd : (0 : ℚ) < (audio_length : ℚ) / (SAMPLE_RATE : ℚ) := by
      refine div_pos ?_ ?_
      · exact_mod_cast hpos
      · norm_num [SAMPLE_RATE]
    have hmono : onsets.get ⟨i + 1, hi1⟩ ≤ onsets.get ⟨onsets.length - 1, hiN⟩ := by
      rcases Nat.lt_or_ge (i + 1) (onsets.length - 1) with hlt | hge
      · exact List.Sorted.rel_get_of_lt hsorted (Fin.mk_lt_mk.mpr hlt)
      · have hval : i + 1 = onsets.length - 1 := by omega
        have heq : (⟨i + 1, hi1⟩ : Fin onsets.length) = ⟨onsets.length - 1, hiN⟩ := by
          apply Fin.ext
          exact hval
        rw [heq]
    have htnn : (0 : ℚ) ≤ onsets.get ⟨i + 1, hi1⟩ :=
      hnn _ (List.get_mem onsets _ _)
    have hscale : onsets.get ⟨i + 1, hi1⟩ /
          ((audio_length : ℚ) / (SAMPLE_RATE : ℚ)) * (pv1.length : ℚ) ≤
        onsets.get ⟨onsets.length - 1, hiN⟩ /
          ((audio_length : ℚ) / (SAMPLE_RATE : ℚ)) * (pv1.length : ℚ) :=
      mul_le_mul_of_nonneg_right ((div_le_div_iff_of_pos_right hd).mpr hmono)
        (by positivity)
    have hE_le : (_pitches_per_interval audio_length pv1 onsets).getD (i + 1) 0 ≤
        (_pitches_per_interval audio_length pv1 onsets).getD (onsets.length - 1) 0 := by
      rw [hget pv1 (i + 1) hi1, hget pv1 (onsets.length - 1) hiN]
      exact pyInt_mono hscale
    have hE_nonneg : (0 : ℤ) ≤
        (_pitches_per_interval audio_length pv1 onsets).getD (i + 1) 0 := by
      rw [hget pv1 (i + 1) hi1]
      refine pyInt_nonneg ?_
      refine mul_nonneg (div_nonneg htnn (le_of_lt hd)) ?_
      positivity
    have he : pyIdx pv1.length
        ((_pitches_per_interval audio_length pv1 onsets).getD (i + 1) 0) ≤
        (((_pitches_per_interval audio_length pv1 onsets).getD
          (onsets.length - 1) 0).toNat) := by
      unfold pyIdx
      rw [if_pos hE_nonneg]
      exact le_trans (min_le_left _ _) (Int.toNat_le_toNat hE_le)
    have hslice : pySlice pv1
        ((_pitches_per_interval audio_length pv1 onsets).getD i 0)
        ((_pitches_per_interval audio_length pv1 onsets).getD (i + 1) 0) =
      pySlice pv2
        ((_pitches_per_interval audio_length pv1 onsets).getD i 0)
        ((_pitches_per_interval audio_length pv1 onsets).getD (i + 1) 0) :=
      pySlice_congr pv1 pv2 _ _ _ hlen htake he
    dsimp only
    rw [hslice]

/-- Witness for C9: on a one-second clip with onsets at 0s and 0.5s and
four pitch frames, only frames before index 2 (the frame of the last
onset) matter: changing the last two frames from `300, 400` to `7, 9`
leaves the per-interval averages unchanged, while the boundary table
has three entries for the two onsets. -/
theorem onset_interval_final_dropped_witness :
    (_pitches_per_interval 22050 [(100 : ℝ), 200, 300, 400] [0, 1/2]).length =
      ([0, 1/2] : List ℚ).length + 1
  ∧ _average_per_interval [(100 : ℝ), 200, 300, 400]
      (_pitches_per_interval 22050 [(100 : ℝ), 200, 300, 400] [0, 1/2]) [0, 1/2] =
    _average_per_interval [(100 : ℝ), 200, 7, 9]
      (_pitches_per_interval 22050 [(100 : ℝ), 200, 7, 9] [0, 1/2]) [0, 1/2] := by
  have hB : ((_pitches_per_interval 22050 [(100 : ℝ), 200, 300, 400]
      [0, 1/2]).getD (([0, 1/2] : List ℚ).length - 1) 0).toNat = 2 := by
    norm_num [_pitches_per_interval, pyInt, SAMPLE_RATE, List.getD_cons_succ,
      List.getD_cons_zero, List.map_cons, List.map_nil, Int.floor_zero]
    rfl
  have h := onset_interval_final_dropped 22050 [(100 : ℝ), 200, 300, 400]
    [(100 : ℝ), 200, 7, 9] [0, 1/2] (by norm_num) (by simp)
    (by norm_num [List.sorted_cons]) (by intro t ht; fin_cases ht <;> norm_num) rfl
    (by rw [hB]; rfl)
  exact ⟨h.1, h.2.2⟩
